import Mathlib

/-!
Shallow embedding of the stepper widget core:
  - `Stepper.jsx`: shared step state (registry, active position, completed set)
    and its mutation operations `registerStep`, `unregisterStep`, `goToStep`,
    `goToNext`, `goToPrevious`, `markStepCompleted`, `isStepCompleted`;
  - `StepperContext.jsx`: the `useStepper` guard;
  - `StepList.jsx`: the keyboard handler `handleKeyDown`;
  - `Step.jsx`: active-only rendering and the enter/exit lifecycle effect.

Positions are modelled as `Int` (JS numbers used as indices; the container
accepts an arbitrary caller-supplied `initialStep`).  The JS `Set` of
completed steps is modelled as a duplicate-free `List Int` where
`new Set([...prev, x])` appends `x` when absent.  The optional
`onStepChange` callback is modelled by returning the list of arguments it
is invoked with (empty when it is not invoked).
-/

/-- A registry entry: `{ id: stepId, ...stepData }` with
`stepData = { label, index }` as passed by `Step.jsx`'s registration
effect. -/
structure StepDescriptor where
  id : String
  label : String
  index : Int
deriving DecidableEq, Repr

/-- The internal state of one `Stepper` container:
`currentStep`, `completedSteps`, `steps` from `Stepper.jsx`. -/
structure StepperState where
  currentStep : Int
  completedSteps : List Int
  steps : List StepDescriptor
deriving DecidableEq, Repr

/-- Initial state, from `useState(initialStep)`, `useState(new Set())` and
`useState([])`:
the state right after the container mounts. -/
def initStepper (initialStep : Int) : StepperState :=
  ⟨initialStep, [], []⟩

/-- Model of `new Set([...prev, x])` on a duplicate-free list: unchanged when `x`
is already present, otherwise `x` is appended. -/
def setAdd (l : List Int) (x : Int) : List Int :=
  if x ∈ l then l else l ++ [x]

/-- Model of `registerStep(stepId, stepData)`: if an entry with the same id exists
the registry is returned unchanged; otherwise the new entry is appended
and the whole array is sorted by `(a, b) => a.index - b.index`
(a stable ascending sort on `index`). -/
def registerStep (s : StepperState) (stepId label : String) (index : Int) :
    StepperState :=
  if (s.steps.find? (fun d => d.id == stepId)).isSome then s
  else
    { s with
      steps :=
        (s.steps ++ [StepDescriptor.mk stepId label index]).mergeSort
          (fun a b => a.index ≤ b.index) }

/-- Model of `unregisterStep(stepId)`: `prev.filter(s => s.id !== stepId)`. -/
def unregisterStep (s : StepperState) (stepId : String) : StepperState :=
  { s with steps := s.steps.filter (fun d => !(d.id == stepId)) }

/-- Model of `goToStep(stepIndex)`: guarded by
`stepIndex >= 0 && stepIndex < steps.length`; on success updates
`currentStep` and invokes `onStepChange(stepIndex)` when the callback is
present.  The second component is the list of arguments the optional
callback is invoked with. -/
def goToStep (s : StepperState) (stepIndex : Int) :
    StepperState × List Int :=
  if 0 ≤ stepIndex ∧ stepIndex < (s.steps.length : Int) then
    ({ s with currentStep := stepIndex }, [stepIndex])
  else (s, [])

/-- Model of `goToNext()`: when `currentStep < steps.length - 1`, adds the current
step to the completed set and then calls `goToStep(currentStep + 1)`. -/
def goToNext (s : StepperState) : StepperState × List Int :=
  if s.currentStep < (s.steps.length : Int) - 1 then
    goToStep { s with completedSteps := setAdd s.completedSteps s.currentStep }
      (s.currentStep + 1)
  else (s, [])

/-- Model of `goToPrevious()`: when `currentStep > 0`, calls
`goToStep(currentStep - 1)`. -/
def goToPrevious (s : StepperState) : StepperState × List Int :=
  if s.currentStep > 0 then goToStep s (s.currentStep - 1)
  else (s, [])

/-- Model of `markStepCompleted(stepIndex)`: unconditionally adds `stepIndex` to
the completed set. -/
def markStepCompleted (s : StepperState) (stepIndex : Int) : StepperState :=
  { s with completedSteps := setAdd s.completedSteps stepIndex }

/-- Model of `isStepCompleted(stepIndex)`: membership test on the completed set. -/
def isStepCompleted (s : StepperState) (stepIndex : Int) : Bool :=
  s.completedSteps.contains stepIndex

/-- The keys the `StepList.jsx` handler distinguishes; every other key
falls into the `default` branch. -/
inductive Key where
  | arrowLeft
  | arrowRight
  | homeKey
  | endKey
  | enter
  | space
  | other (name : String)
deriving DecidableEq, Repr

/-- Result of one `handleKeyDown(e, index)` call in `StepList.jsx`:
the (possibly updated) shared state, the arguments passed to the optional
`onStepChange` callback, the indicator index holding focus after the
handler returns, and whether `e.preventDefault()` was called. -/
structure KeyOutcome where
  state : StepperState
  notifications : List Int
  focusIndex : Int
  prevented : Bool
deriving DecidableEq, Repr

/-- Model of `handleKeyDown(e, index)`: ArrowLeft/ArrowRight move focus one step
(clamped), Home/End jump to the ends, Enter/Space call
`setCurrentStep(index)` (which is `goToStep`) and return, and any other
key returns without touching anything. -/
def handleKeyDown (s : StepperState) (key : Key) (index : Int) :
    KeyOutcome :=
  match key with
  | .arrowLeft =>
      ⟨s, [], if index > 0 then index - 1 else index, true⟩
  | .arrowRight =>
      ⟨s, [], if index < (s.steps.length : Int) - 1 then index + 1 else index,
        true⟩
  | .homeKey => ⟨s, [], 0, true⟩
  | .endKey => ⟨s, [], (s.steps.length : Int) - 1, true⟩
  | .enter => ⟨(goToStep s index).1, (goToStep s index).2, index, true⟩
  | .space => ⟨(goToStep s index).1, (goToStep s index).2, index, true⟩
  | .other _ => ⟨s, [], index, false⟩

/-- Model of `useStepper()` from `StepperContext.jsx`: throws when the context is
absent (consumer not under a `Stepper` provider), otherwise returns the
context value. -/
def useStepper {α : Type} (ctx : Option α) : Except String α :=
  match ctx with
  | none => Except.error "useStepper must be used within a Stepper component"
  | some c => Except.ok c

/-- The rendered output of one `Step`: the tabpanel `div` with its index
and resolved content (`Step.jsx` only reaches this when active). -/
inductive StepOutput where
  | panel (index : Int) (content : String)
deriving DecidableEq, Repr

/-- Rendering in `Step.jsx`: `isActive = currentStep === index`; when not
active the component returns `null`, otherwise the tabpanel with the
resolved content. -/
def stepRender (currentStep index : Int) (content : String) :
    Option StepOutput :=
  if currentStep == index then some (StepOutput.panel index content)
  else none

/-- The lifecycle notifications a `Step` can fire. -/
inductive LifecycleEvent where
  | enter
  | exit
deriving DecidableEq, Repr

/-- One run of the activation effect in `Step.jsx`: compares `isActive`
with `previousActiveState.current`, fires `onEnter` on an
inactive-to-active transition and `onExit` on an active-to-inactive one,
then stores `isActive` back into the ref. -/
def stepEffectRun (isActive prev : Bool) : Option LifecycleEvent × Bool :=
  (if isActive && !prev then some LifecycleEvent.enter
   else if !isActive && prev then some LifecycleEvent.exit
   else none,
   isActive)

/-- Runs the activation effect once per activation value, threading the
`previousActiveState` ref. -/
def stepEffectTraceAux (prev : Bool) : List Bool → List (Option LifecycleEvent)
  | [] => []
  | a :: rest => (stepEffectRun a prev).1 :: stepEffectTraceAux a rest

/-- The lifecycle events fired over a `Step`'s life: the ref is
initialised to the activation value of the first render
(`useRef(isActive)`), the effect then runs once after that mount render
and once per subsequent activation value. -/
def stepEffectTrace (initialActive : Bool) (updates : List Bool) :
    List (Option LifecycleEvent) :=
  stepEffectTraceAux initialActive (initialActive :: updates)

/-- A registry mutation, as triggered by `Step` mount/unmount. -/
inductive RegOp where
  | register (stepId label : String) (index : Int)
  | unregister (stepId : String)
deriving DecidableEq, Repr

/-- Applies one registry mutation to the state. -/
def applyRegOp (s : StepperState) : RegOp → StepperState
  | RegOp.register stepId label index => registerStep s stepId label index
  | RegOp.unregister stepId => unregisterStep s stepId

/-- Applies a sequence of registry mutations in order. -/
def applyRegOps (s : StepperState) (ops : List RegOp) : StepperState :=
  ops.foldl applyRegOp s

/-! Helper lemmas shared by several claims. -/

theorem setAdd_mem_self (l : List Int) (x : Int) : x ∈ setAdd l x := by
  unfold setAdd
  split
  · assumption
  · simp

theorem setAdd_mem_mono (l : List Int) (x y : Int) (h : y ∈ l) :
    y ∈ setAdd l x := by
  unfold setAdd
  split
  · exact h
  · exact List.mem_append_left _ h

theorem goToStep_completedSteps (s : StepperState) (p : Int) :
    (goToStep s p).1.completedSteps = s.completedSteps := by
  unfold goToStep
  split <;> rfl

theorem goToStep_steps (s : StepperState) (p : Int) :
    (goToStep s p).1.steps = s.steps := by
  unfold goToStep
  split <;> rfl

/-- Demo configuration: three steps registered in order. -/
def demoSteps : List StepDescriptor :=
  [⟨"s0", "Step 1", 0⟩, ⟨"s1", "Step 2", 1⟩, ⟨"s2", "Step 3", 2⟩]

/-- Demo state: three steps, active position 0, nothing completed. -/
def demoState : StepperState :=
  ⟨0, [], demoSteps⟩

/-- C1: from an active position `p` with `0 ≤ p < N - 1`, `goToNext` adds
`p` to the completed set and moves the active position to `p + 1`; when
the active position is the last one (`p = N - 1`) it changes nothing and
fires no notification. -/
theorem goToNext_spec (s : StepperState) (h0 : 0 ≤ s.currentStep) :
    (s.currentStep < (s.steps.length : Int) - 1 →
      (goToNext s).1.currentStep = s.currentStep + 1 ∧
      s.currentStep ∈ (goToNext s).1.completedSteps) ∧
    (s.currentStep = (s.steps.length : Int) - 1 → goToNext s = (s, [])) := by
  constructor
  · intro h
    have h2 : (0 ≤ s.currentStep + 1 ∧
        s.currentStep + 1 < (({ s with
          completedSteps := setAdd s.completedSteps s.currentStep } :
            StepperState).steps.length : Int)) := by
      simp only []
      omega
    simp only [goToNext, goToStep, if_pos h, if_pos h2]
    exact ⟨trivial, setAdd_mem_self _ _⟩
  · intro h
    have h2 : ¬ s.currentStep < (s.steps.length : Int) - 1 := by omega
    simp only [goToNext, if_neg h2]

theorem goToNext_spec_witness :
    (0 : Int) ≤ demoState.currentStep ∧
    demoState.currentStep < (demoState.steps.length : Int) - 1 ∧
    ((goToNext demoState).1.currentStep = demoState.currentStep + 1 ∧
      demoState.currentStep ∈ (goToNext demoState).1.completedSteps) :=
  ⟨by decide, by decide, (goToNext_spec demoState (by decide)).1 (by decide)⟩

/-- C2: `goToStep p` for `p` outside `[0, N)` returns the state unchanged
and fires no notification; for `p` inside the range it sets the active
position to `p`, leaves everything else unchanged, and invokes the
optional step-changed callback with `p`. -/
theorem goToStep_spec (s : StepperState) (p : Int) :
    ((p < 0 ∨ (s.steps.length : Int) ≤ p) → goToStep s p = (s, [])) ∧
    (0 ≤ p → p < (s.steps.length : Int) →
      (goToStep s p).1.currentStep = p ∧
      (goToStep s p).1.completedSteps = s.completedSteps ∧
      (goToStep s p).1.steps = s.steps ∧
      (goToStep s p).2 = [p]) := by
  constructor
  · intro h
    have h2 : ¬ (0 ≤ p ∧ p < (s.steps.length : Int)) := by omega
    simp only [goToStep, if_neg h2]
  · intro h0 h1
    simp only [goToStep, if_pos (And.intro h0 h1)]
    exact ⟨trivial, trivial, trivial, trivial⟩

theorem goToStep_spec_witness :
    ((-1 : Int) < 0 ∨ (demoState.steps.length : Int) ≤ -1) ∧
    goToStep demoState (-1) = (demoState, []) ∧
    (0 : Int) ≤ 2 ∧ (2 : Int) < (demoState.steps.length : Int) ∧
    (goToStep demoState 2).1.currentStep = 2 ∧
    (goToStep demoState 2).2 = [2] :=
  ⟨by decide,
    (goToStep_spec demoState (-1)).1 (by decide),
    by decide, by decide,
    ((goToStep_spec demoState 2).2 (by decide) (by decide)).1,
    ((goToStep_spec demoState 2).2 (by decide) (by decide)).2.2.2⟩

/-- C6: `goToPrevious` is a no-op at active position 0; from an in-range
active position `p > 0` it moves the active position to `p - 1`; in every
case the completed set and the registry are unchanged. -/
theorem goToPrevious_spec (s : StepperState) :
    (s.currentStep = 0 → goToPrevious s = (s, [])) ∧
    (0 < s.currentStep → s.currentStep < (s.steps.length : Int) →
      (goToPrevious s).1.currentStep = s.currentStep - 1) ∧
    (goToPrevious s).1.completedSteps = s.completedSteps ∧
    (goToPrevious s).1.steps = s.steps := by
  refine ⟨?_, ?_, ?_, ?_⟩
  · intro h
    have h2 : ¬ s.currentStep > 0 := by omega
    simp only [goToPrevious, if_neg h2]
  · intro h0 h1
    have h2 : 0 ≤ s.currentStep - 1 ∧
        s.currentStep - 1 < (s.steps.length : Int) := by omega
    simp only [goToPrevious, if_pos h0, goToStep, if_pos h2]
  · unfold goToPrevious
    split
    · exact goToStep_completedSteps s _
    · rfl
  · unfold goToPrevious
    split
    · exact goToStep_steps s _
    · rfl

theorem goToPrevious_spec_witness :
    (goToPrevious demoState = (demoState, [])) ∧
    (goToPrevious (StepperState.mk 2 [] demoSteps)).1.currentStep = 2 - 1 :=
  ⟨(goToPrevious_spec demoState).1 (by decide),
    (goToPrevious_spec (StepperState.mk 2 [] demoSteps)).2.1 (by decide)
      (by decide)⟩

/-- C8: `markStepCompleted p` adds `p` to the completed set for every
integer `p` (no bounds check), and no public operation — `goToStep`,
`goToNext`, `goToPrevious`, `registerStep`, `unregisterStep`,
`markStepCompleted` — ever removes an element from the completed set. -/
theorem completedSet_monotone (s : StepperState) (p x : Int)
    (stepId label : String) :
    p ∈ (markStepCompleted s p).completedSteps ∧
    (x ∈ s.completedSteps →
      x ∈ (goToStep s p).1.completedSteps ∧
      x ∈ (goToNext s).1.completedSteps ∧
      x ∈ (goToPrevious s).1.completedSteps ∧
      x ∈ (registerStep s stepId label p).completedSteps ∧
      x ∈ (unregisterStep s stepId).completedSteps ∧
      x ∈ (markStepCompleted s p).completedSteps) := by
  refine ⟨setAdd_mem_self _ _, ?_⟩
  intro hx
  refine ⟨?_, ?_, ?_, ?_, ?_, ?_⟩
  · rw [goToStep_completedSteps]; exact hx
  · unfold goToNext
    split
    · rw [goToStep_completedSteps]
      exact setAdd_mem_mono _ _ _ hx
    · exact hx
  · unfold goToPrevious
    split
    · rw [goToStep_completedSteps]; exact hx
    · exact hx
  · unfold registerStep
    split
    · exact hx
    · exact hx
  · exact hx
  · exact setAdd_mem_mono _ _ _ hx

theorem completedSet_monotone_witness :
    (-5 : Int) ∈ (markStepCompleted demoState (-5)).completedSteps ∧
    ((0 : Int) ∈ (markStepCompleted demoState 0).completedSteps ∧
      (0 : Int) ∈ (goToNext (markStepCompleted demoState 0)).1.completedSteps) :=
  ⟨(completedSet_monotone demoState (-5) 0 "s0" "L").1,
    ⟨(completedSet_monotone demoState 0 0 "s0" "L").1,
      ((completedSet_monotone (markStepCompleted demoState 0) 3 0 "s0" "L").2
        (by decide)).2.1⟩⟩

/-- C3: for a focused indicator index `i` in `[0, N)`, ArrowRight moves
focus to `min(i+1, N-1)`, ArrowLeft to `max(i-1, 0)`, Home to `0`, End to
`N-1`, all without touching the shared state; Enter and Space set the
active position to `i`; any other key changes neither state nor focus and
fires no notification. -/
theorem handleKeyDown_spec (s : StepperState) (i : Int) (k : String)
    (h0 : 0 ≤ i) (h1 : i < (s.steps.length : Int)) :
    ((handleKeyDown s Key.arrowRight i).focusIndex =
        min (i + 1) ((s.steps.length : Int) - 1) ∧
      (handleKeyDown s Key.arrowRight i).state = s) ∧
    ((handleKeyDown s Key.arrowLeft i).focusIndex = max (i - 1) 0 ∧
      (handleKeyDown s Key.arrowLeft i).state = s) ∧
    ((handleKeyDown s Key.homeKey i).focusIndex = 0 ∧
      (handleKeyDown s Key.homeKey i).state = s) ∧
    ((handleKeyDown s Key.endKey i).focusIndex = (s.steps.length : Int) - 1 ∧
      (handleKeyDown s Key.endKey i).state = s) ∧
    ((handleKeyDown s Key.enter i).state.currentStep = i ∧
      (handleKeyDown s Key.space i).state.currentStep = i) ∧
    ((handleKeyDown s (Key.other k) i).state = s ∧
      (handleKeyDown s (Key.other k) i).focusIndex = i ∧
      (handleKeyDown s (Key.other k) i).notifications = []) := by
  have hgo : (goToStep s i).1.currentStep = i := by
    simp only [goToStep, if_pos (And.intro h0 h1)]
  refine ⟨⟨?_, rfl⟩, ⟨?_, rfl⟩, ⟨rfl, rfl⟩, ⟨rfl, rfl⟩, ⟨hgo, hgo⟩,
    ⟨rfl, rfl, rfl⟩⟩
  · simp only [handleKeyDown]
    split <;> omega
  · simp only [handleKeyDown]
    split <;> omega

theorem handleKeyDown_spec_witness :
    (0 : Int) ≤ 1 ∧ (1 : Int) < (demoState.steps.length : Int) ∧
    ((handleKeyDown demoState Key.arrowRight 1).focusIndex =
        min ((1 : Int) + 1) ((demoState.steps.length : Int) - 1) ∧
      (handleKeyDown demoState Key.arrowRight 1).state = demoState) ∧
    ((handleKeyDown demoState Key.enter 1).state.currentStep = 1 ∧
      (handleKeyDown demoState Key.space 1).state.currentStep = 1) :=
  ⟨by decide, by decide,
    (handleKeyDown_spec demoState 1 "x" (by decide) (by decide)).1,
    (handleKeyDown_spec demoState 1 "x" (by decide) (by decide)).2.2.2.2.1⟩

/-- C5: a step unit produces output iff its index equals the active
position (inactive steps render `null`); when the registered indices are
pairwise distinct and the active position is one of them, exactly one
step unit renders its content. -/
theorem stepRender_spec (c : Int) (units : List (Int × String))
    (hnd : (units.map Prod.fst).Nodup) (hmem : c ∈ units.map Prod.fst) :
    (∀ u ∈ units, ((stepRender c u.1 u.2).isSome = true ↔ c = u.1)) ∧
    units.countP (fun u => (stepRender c u.1 u.2).isSome) = 1 := by
  have hpt : ∀ u ∈ units,
      ((stepRender c u.1 u.2).isSome = true ↔ (u.1 == c) = true) := by
    intro u _
    by_cases h : c = u.1
    · simp [stepRender, h]
    · have hb : (c == u.1) = false := by
        simpa using h
      have hb2 : (u.1 == c) = false := by
        simpa using fun hh => h hh.symm
      simp [stepRender, hb, hb2]
  constructor
  · intro u hu
    rw [hpt u hu]
    constructor
    · intro hh
      exact ((by simpa using hh : u.1 = c)).symm
    · intro hh
      simpa using hh.symm
  · rw [List.countP_congr hpt]
    have hmap : units.countP (fun u => u.1 == c) =
        (units.map Prod.fst).countP (fun x => x == c) := by
      rw [List.countP_map]
      rfl
    rw [hmap]
    rw [← List.count_eq_countP]
    exact List.count_eq_one_of_mem hnd hmem

theorem stepRender_spec_witness :
    (([(0, "a"), (1, "b"), (2, "c")] : List (Int × String)).map
        Prod.fst).Nodup ∧
    (1 : Int) ∈ (([(0, "a"), (1, "b"), (2, "c")] : List (Int × String)).map
        Prod.fst) ∧
    ([(0, "a"), (1, "b"), (2, "c")] : List (Int × String)).countP
        (fun u => (stepRender 1 u.1 u.2).isSome) = 1 :=
  ⟨by decide, by decide,
    (stepRender_spec 1 [(0, "a"), (1, "b"), (2, "c")] (by decide)
      (by decide)).2⟩

/-- C7: reading the shared state outside a provider yields the single
distinguishable "used without provider" error, and inside a provider it
yields the context value; the other misuse cases — out-of-range
navigation and duplicate registration — are silent no-ops, not errors. -/
theorem useStepper_spec {α : Type} (c : α) (s : StepperState) (p : Int)
    (stepId label : String) (index : Int) :
    useStepper (none : Option α) =
      Except.error "useStepper must be used within a Stepper component" ∧
    useStepper (some c) = Except.ok c ∧
    ((p < 0 ∨ (s.steps.length : Int) ≤ p) → goToStep s p = (s, [])) ∧
    ((s.steps.find? (fun d => d.id == stepId)).isSome →
      registerStep s stepId label index = s) := by
  refine ⟨rfl, rfl, ?_, ?_⟩
  · intro h
    have h2 : ¬ (0 ≤ p ∧ p < (s.steps.length : Int)) := by omega
    simp only [goToStep, if_neg h2]
  · intro h
    unfold registerStep
    rw [if_pos h]

theorem useStepper_spec_witness :
    useStepper (none : Option Nat) =
      Except.error "useStepper must be used within a Stepper component" ∧
    useStepper (some 7) = Except.ok 7 ∧
    ((demoState.steps.length : Int) ≤ 5 ∧ goToStep demoState 5 = (demoState, [])) ∧
    ((demoState.steps.find? (fun d => d.id == "s0")).isSome ∧
      registerStep demoState "s0" "Another" 9 = demoState) :=
  ⟨(useStepper_spec (7 : Nat) demoState 5 "s0" "Another" 9).1,
    (useStepper_spec (7 : Nat) demoState 5 "s0" "Another" 9).2.1,
    ⟨by decide,
      (useStepper_spec (7 : Nat) demoState 5 "s0" "Another" 9).2.2.1
        (Or.inr (by decide))⟩,
    ⟨by decide,
      (useStepper_spec (7 : Nat) demoState 5 "s0" "Another" 9).2.2.2
        (by decide)⟩⟩

/-- State used for the C9 counterexample: one registered step, active
position initialised to the out-of-range value -1. -/
def negOneState : StepperState :=
  ⟨-1, [], [⟨"s0", "Step 1", 0⟩]⟩

/-- State used for the C9 amended claim's witness: one registered step,
active position initialised to -2. -/
def negTwoState : StepperState :=
  ⟨-2, [], [⟨"s0", "Step 1", 0⟩]⟩

/-- C9 counterexample: with one registered step (so N = 1) and the active
position initialised to -1 — a value outside `[0, N)` with `-1 < N - 1` —
`goToNext` adds -1 to the completed set, but the inner `goToStep 0`
passes its bounds check, so the active position becomes 0 rather than
remaining -1 as the claim states. -/
theorem goToNext_negOne_counterexample :
    negOneState.currentStep = -1 ∧
    (negOneState.currentStep < 0 ∨
      (negOneState.steps.length : Int) ≤ negOneState.currentStep) ∧
    negOneState.currentStep < (negOneState.steps.length : Int) - 1 ∧
    (-1 : Int) ∈ (goToNext negOneState).1.completedSteps ∧
    (goToNext negOneState).1.currentStep = 0 ∧
    ¬ (goToNext negOneState).1.currentStep = negOneState.currentStep := by
  decide

/-- C9 amended: when the active position is initialised to a value
`v < -1` (so that `v + 1` is still out of range), `goToNext` adds the
out-of-range value `v` to the completed set while the active position
remains `v`, because the inner `goToStep (v + 1)` is rejected by its own
bounds check and no notification fires. -/
theorem goToNext_negative_spec (s : StepperState)
    (h : s.currentStep < -1) :
    (goToNext s).1.currentStep = s.currentStep ∧
    s.currentStep ∈ (goToNext s).1.completedSteps ∧
    (goToNext s).2 = [] := by
  have hguard : s.currentStep < (s.steps.length : Int) - 1 := by omega
  have h2 : ¬ (0 ≤ s.currentStep + 1 ∧
      s.currentStep + 1 < (({ s with
        completedSteps := setAdd s.completedSteps s.currentStep } :
          StepperState).steps.length : Int)) := by
    simp only []
    omega
  simp only [goToNext, goToStep, if_pos hguard, if_neg h2]
  exact ⟨trivial, setAdd_mem_self _ _, trivial⟩

theorem goToNext_negative_spec_witness :
    negTwoState.currentStep < -1 ∧
    ((goToNext negTwoState).1.currentStep = negTwoState.currentStep ∧
      negTwoState.currentStep ∈ (goToNext negTwoState).1.completedSteps ∧
      (goToNext negTwoState).2 = []) :=
  ⟨by decide, goToNext_negative_spec negTwoState (by decide)⟩

/-- C10: the previous-activation ref is initialised to the activation
value of the mount render, so the effect fires no lifecycle event on
mount; `onEnter` fires exactly on an inactive-to-active transition and
`onExit` exactly on an active-to-inactive transition. -/
theorem stepLifecycle_spec (b a prev : Bool) (updates : List Bool) :
    (stepEffectRun b b).1 = none ∧
    (stepEffectTrace b updates).head? = some none ∧
    ((stepEffectRun a prev).1 = some LifecycleEvent.enter ↔
      (a = true ∧ prev = false)) ∧
    ((stepEffectRun a prev).1 = some LifecycleEvent.exit ↔
      (a = false ∧ prev = true)) := by
  refine ⟨?_, ?_, ?_, ?_⟩
  · cases b <;> rfl
  · simp only [stepEffectTrace, stepEffectTraceAux, List.head?_cons]
    cases b <;> rfl
  · cases a <;> cases prev <;> simp [stepEffectRun]
  · cases a <;> cases prev <;> simp [stepEffectRun]

/-- The registry invariant maintained by `registerStep` and
`unregisterStep`: no two entries share an identity, and the sequence is
ascending on `index`. -/
def RegistryInv (l : List StepDescriptor) : Prop :=
  (l.map StepDescriptor.id).Nodup ∧
  l.Pairwise (fun a b => a.index ≤ b.index)

theorem registerStep_inv (s : StepperState) (stepId label : String)
    (index : Int) (h : RegistryInv s.steps) :
    RegistryInv (registerStep s stepId label index).steps := by
  unfold registerStep
  split
  · exact h
  · rename_i hfind
    have hnone : s.steps.find? (fun d => d.id == stepId) = none :=
      Option.not_isSome_iff_eq_none.mp hfind
    have habsent : ∀ d ∈ s.steps, d.id ≠ stepId := by
      intro d hd
      simpa using List.find?_eq_none.mp hnone d hd
    have hperm : List.Perm
        ((s.steps ++ [StepDescriptor.mk stepId label index]).mergeSort
          (fun a b => a.index ≤ b.index))
        (s.steps ++ [StepDescriptor.mk stepId label index]) :=
      List.mergeSort_perm _ _
    constructor
    · have hids : ((s.steps ++ [StepDescriptor.mk stepId label index]).map
          StepDescriptor.id).Nodup := by
        rw [List.map_append, List.nodup_append]
        refine ⟨h.1, List.nodup_singleton _, ?_⟩
        intro x hx hy
        obtain ⟨d, hd, hdx⟩ := List.mem_map.mp hx
        have : x = stepId := by simpa using hy
        exact habsent d hd (hdx.trans this)
      exact ((hperm.map StepDescriptor.id).symm).nodup hids
    · have htrans : ∀ (a b c : StepDescriptor),
          (decide (a.index ≤ b.index)) = true →
          (decide (b.index ≤ c.index)) = true →
          (decide (a.index ≤ c.index)) = true := by
        intro a b c hab hbc
        simp only [decide_eq_true_eq] at hab hbc ⊢
        omega
      have htotal : ∀ (a b : StepDescriptor),
          ((decide (a.index ≤ b.index)) || (decide (b.index ≤ a.index)))
            = true := by
        intro a b
        simp only [Bool.or_eq_true, decide_eq_true_eq]
        omega
      have hs := List.sorted_mergeSort htrans htotal
        (s.steps ++ [StepDescriptor.mk stepId label index])
      exact hs.imp (fun hab => by simpa using hab)

theorem unregisterStep_inv (s : StepperState) (stepId : String)
    (h : RegistryInv s.steps) :
    RegistryInv (unregisterStep s stepId).steps := by
  unfold unregisterStep
  constructor
  · exact List.Nodup.sublist
      (List.Sublist.map StepDescriptor.id (List.filter_sublist _)) h.1
  · exact h.2.filter _

theorem applyRegOps_inv (s : StepperState) (ops : List RegOp)
    (h : RegistryInv s.steps) : RegistryInv (applyRegOps s ops).steps := by
  induction ops generalizing s with
  | nil => exact h
  | cons op rest ih =>
      have hstep : RegistryInv (applyRegOp s op).steps := by
        cases op with
        | register stepId label index => exact registerStep_inv s _ _ _ h
        | unregister stepId => exact unregisterStep_inv s _ h
      exact ih _ hstep

/-- C4: after any sequence of register/unregister operations from a fresh
container state, the registry has pairwise-distinct identities and is
sorted ascending by position regardless of registration order; moreover
registering an already-present identity leaves the state unchanged (not
an update) and unregistering an absent identity is a no-op. -/
theorem registry_invariant (ops : List RegOp) (i : Int) (s : StepperState)
    (stepId label : String) (index : Int) :
    ((applyRegOps (initStepper i) ops).steps.map StepDescriptor.id).Nodup ∧
    List.Sorted (fun a b : StepDescriptor => a.index ≤ b.index)
      (applyRegOps (initStepper i) ops).steps ∧
    ((∃ d ∈ s.steps, d.id = stepId) →
      registerStep s stepId label index = s) ∧
    ((∀ d ∈ s.steps, d.id ≠ stepId) → unregisterStep s stepId = s) := by
  have hinit : RegistryInv (initStepper i).steps := by
    constructor
    · simp [initStepper]
    · simp [initStepper]
  have hinv := applyRegOps_inv (initStepper i) ops hinit
  refine ⟨hinv.1, hinv.2, ?_, ?_⟩
  · intro hex
    obtain ⟨d, hd, hid⟩ := hex
    have hsome : (s.steps.find? (fun d => d.id == stepId)).isSome := by
      rw [List.find?_isSome]
      exact ⟨d, hd, by simpa using hid⟩
    unfold registerStep
    rw [if_pos hsome]
  · intro hall
    unfold unregisterStep
    have hfilter : s.steps.filter (fun d => !(d.id == stepId)) = s.steps := by
      rw [List.filter_eq_self]
      intro d hd
      simpa using hall d hd
    rw [hfilter]

/-- Registration sequence exercising out-of-order mounts, a duplicate
identity and removals. -/
def demoOps : List RegOp :=
  [RegOp.register "b" "B" 2, RegOp.register "a" "A" 1,
   RegOp.register "a" "A2" 3, RegOp.unregister "zz",
   RegOp.register "c" "C" 0, RegOp.unregister "b"]

theorem registry_invariant_witness :
    ((applyRegOps (initStepper 0) demoOps).steps.map
        StepDescriptor.id).Nodup ∧
    List.Sorted (fun a b : StepDescriptor => a.index ≤ b.index)
      (applyRegOps (initStepper 0) demoOps).steps ∧
    (∃ d ∈ demoState.steps, d.id = "s0") ∧
    registerStep demoState "s0" "X" 5 = demoState ∧
    (∀ d ∈ demoState.steps, d.id ≠ "zz") ∧
    unregisterStep demoState "zz" = demoState :=
  ⟨(registry_invariant demoOps 0 demoState "s0" "X" 5).1,
    (registry_invariant demoOps 0 demoState "s0" "X" 5).2.1,
    by decide,
    (registry_invariant demoOps 0 demoState "s0" "X" 5).2.2.1 (by decide),
    by decide,
    (registry_invariant demoOps 0 demoState "zz" "X" 5).2.2.2 (by decide)⟩
